import Mathlib

/-!
Verification of the ai4u-memory service core against its design specification.

The Python source is shallowly embedded: Python strings are `List Char`
(written `Str`), Python dicts with a fixed set of optional keys are Lean
structures with `Option` fields, Python's stable `sorted` is modelled by
`List.insertionSort` (any stable sort with the same comparator produces the
same output, so this is a faithful model of CPython's stable Timsort),
`sorted(..., reverse=True)` is the stable sort under the reversed comparison,
and fallible operations return `Option` / `Except`.
-/

/-- A Python string, modelled as its list of characters. -/
abbrev Str := List Char

namespace Ai4uMemory

/-! ## `utils/salience.py` — `rank_by_salience` -/

/-- Model of one edge-result dict consumed by `rank_by_salience`.
`salience` and `score` model the presence/absence of the `"salience"` and
`"score"` keys (their values are Python numbers, modelled as `ℚ`, which is
exact for every Python `int` and `float` value and preserves order).
`rest` models all remaining key/value entries of the dict (`uuid`, `fact`,
`source_node`, ..., serialized), which `rank_by_salience` never reads. -/
structure EdgeDict where
  salience : Option ℚ
  score : Option ℚ
  rest : List (Str × Str)
deriving DecidableEq, Repr

/-- `e.get("salience", e.get("score", 5))` from `salience.py` line 27. -/
def effectiveImportance (e : EdgeDict) : ℚ :=
  match e.salience with
  | some s => s
  | none =>
    match e.score with
    | some s => s
    | none => 5

/-- `e.get("score", 0)`, the sort key of `salience.py` line 31. -/
def scoreKey (e : EdgeDict) : ℚ :=
  e.score.getD 0

/-- The comparison realised by `sorted(edges, key=lambda e: e.get("score", 0),
reverse=True)`: a stable sort that puts `a` before `b` when
`scoreKey b ≤ scoreKey a`. -/
def scoreGE (a b : EdgeDict) : Prop :=
  scoreKey b ≤ scoreKey a

instance : DecidableRel scoreGE := fun _ _ => inferInstanceAs (Decidable (_ ≤ _))

instance : IsTotal EdgeDict scoreGE := ⟨fun a b => le_total (scoreKey b) (scoreKey a)⟩

instance : IsTrans EdgeDict scoreGE := ⟨fun _ _ _ h h2 => le_trans h2 h⟩

/-- `rank_by_salience(edges, min_salience)` from `utils/salience.py`:
if `min_salience` is not `None`, keep only the edges with
`e.get("salience", e.get("score", 5)) >= min_salience` (a list comprehension,
so input order is preserved), then stably sort by `e.get("score", 0)`
descending. -/
def rank_by_salience (edges : List EdgeDict) (min_salience : Option ℤ) : List EdgeDict :=
  let kept : List EdgeDict :=
    match min_salience with
    | some m => edges.filter (fun e => decide ((m : ℚ) ≤ effectiveImportance e))
    | none => edges
  kept.insertionSort scoreGE

example :
    rank_by_salience
      [⟨none, some (mkRat 3 10), [("uuid".toList, "1".toList)]⟩,
       ⟨none, some (mkRat 9 10), [("uuid".toList, "2".toList)]⟩,
       ⟨none, some (mkRat 6 10), [("uuid".toList, "3".toList)]⟩] none =
      [⟨none, some (mkRat 9 10), [("uuid".toList, "2".toList)]⟩,
       ⟨none, some (mkRat 6 10), [("uuid".toList, "3".toList)]⟩,
       ⟨none, some (mkRat 3 10), [("uuid".toList, "1".toList)]⟩] := by
  decide

example :
    rank_by_salience
      [⟨some 3, some (mkRat 3 10), [("uuid".toList, "1".toList)]⟩,
       ⟨some 9, some (mkRat 9 10), [("uuid".toList, "2".toList)]⟩,
       ⟨some 6, some (mkRat 6 10), [("uuid".toList, "3".toList)]⟩] (some 5) =
      [⟨some 9, some (mkRat 9 10), [("uuid".toList, "2".toList)]⟩,
       ⟨some 6, some (mkRat 6 10), [("uuid".toList, "3".toList)]⟩] := by
  decide

example : rank_by_salience [⟨none, some 7, []⟩] (some 5) = [⟨none, some 7, []⟩] := by
  decide

/-- Stability of the sort used by `rank_by_salience`: the elements whose sort
key equals any fixed value `q` appear in the output in exactly the order they
had in the input. -/
theorem filter_scoreKey_insertionSort (l : List EdgeDict) (q : ℚ) :
    (l.insertionSort scoreGE).filter (fun e => decide (scoreKey e = q)) =
      l.filter (fun e => decide (scoreKey e = q)) := by
  have c_sub : List.Sublist (l.filter (fun e => decide (scoreKey e = q))) l :=
    List.filter_sublist l
  have c_pw : (l.filter (fun e => decide (scoreKey e = q))).Pairwise scoreGE := by
    apply List.pairwise_of_forall_mem_list
    intro a ha b hb
    have ha2 := List.of_mem_filter ha
    have hb2 := List.of_mem_filter hb
    simp only [decide_eq_true_eq] at ha2 hb2
    unfold scoreGE
    rw [ha2, hb2]
  have h1 : List.Sublist (l.filter (fun e => decide (scoreKey e = q)))
      (l.insertionSort scoreGE) :=
    List.sublist_insertionSort c_pw c_sub
  have h2 : List.Perm ((l.insertionSort scoreGE).filter (fun e => decide (scoreKey e = q)))
      (l.filter (fun e => decide (scoreKey e = q))) :=
    (List.perm_insertionSort scoreGE l).filter _
  have h4 : List.Sublist (l.filter (fun e => decide (scoreKey e = q)))
      ((l.insertionSort scoreGE).filter (fun e => decide (scoreKey e = q))) := by
    have h5 := h1.filter (fun e => decide (scoreKey e = q))
    simp only [List.filter_filter, Bool.and_self] at h5
    exact h5
  exact (h4.eq_of_length h2.length_eq.symm).symm

/-- C3: with a provided `min_salience` threshold `m`, `rank_by_salience` keeps
exactly the facts whose effective importance (`salience` if present, else
`score`, else the default 5) is at least `m`: the output is a permutation of
the input filtered by that condition, every output fact meets the threshold,
and every input fact meeting the threshold appears in the output. -/
theorem salience_rank_filters_exactly (edges : List EdgeDict) (m : ℤ) :
    List.Perm (rank_by_salience edges (some m))
        (edges.filter (fun e => decide ((m : ℚ) ≤ effectiveImportance e))) ∧
      (∀ e ∈ rank_by_salience edges (some m), (m : ℚ) ≤ effectiveImportance e) ∧
      (∀ e ∈ edges, (m : ℚ) ≤ effectiveImportance e →
        e ∈ rank_by_salience edges (some m)) := by
  have hperm : List.Perm (rank_by_salience edges (some m))
      (edges.filter (fun e => decide ((m : ℚ) ≤ effectiveImportance e))) :=
    List.perm_insertionSort _ _
  refine ⟨hperm, ?_, ?_⟩
  · intro e he
    have := hperm.mem_iff.mp he
    exact of_decide_eq_true (List.mem_filter.mp this).2
  · intro e he hge
    exact hperm.mem_iff.mpr (List.mem_filter.mpr ⟨he, decide_eq_true hge⟩)

/-- C4: with `min_salience = None`, `rank_by_salience` returns the same facts
(a permutation of the input), sorted by `score` in descending order, and the
sort is stable: for every score value `q`, the facts with that score appear in
the output in the input's relative order.  On the spec's example — scores
0.3, 0.9, 0.6 for ids 1, 2, 3 — the output order is [2, 3, 1]. -/
theorem salience_rank_none_sorted_stable (edges : List EdgeDict) :
    List.Perm (rank_by_salience edges none) edges ∧
      (rank_by_salience edges none).Pairwise (fun a b => scoreKey b ≤ scoreKey a) ∧
      (∀ q : ℚ, (rank_by_salience edges none).filter (fun e => decide (scoreKey e = q)) =
        edges.filter (fun e => decide (scoreKey e = q))) ∧
      rank_by_salience
          [⟨none, some (mkRat 3 10), [("uuid".toList, "1".toList)]⟩,
           ⟨none, some (mkRat 9 10), [("uuid".toList, "2".toList)]⟩,
           ⟨none, some (mkRat 6 10), [("uuid".toList, "3".toList)]⟩] none =
        [⟨none, some (mkRat 9 10), [("uuid".toList, "2".toList)]⟩,
         ⟨none, some (mkRat 6 10), [("uuid".toList, "3".toList)]⟩,
         ⟨none, some (mkRat 3 10), [("uuid".toList, "1".toList)]⟩] := by
  refine ⟨List.perm_insertionSort _ _, ?_, ?_, by decide⟩
  · exact List.sorted_insertionSort scoreGE edges
  · intro q
    exact filter_scoreKey_insertionSort edges q

/-- C9: `rank_by_salience` is pure over its input: every output fact is
(structurally unchanged) one of the input facts, the empty input yields the
empty output for every threshold, and an input all of whose facts fall below a
provided threshold yields the empty output. -/
theorem salience_rank_pure (edges : List EdgeDict) (m : Option ℤ) :
    (∀ e ∈ rank_by_salience edges m, e ∈ edges) ∧
      rank_by_salience [] m = [] ∧
      (∀ k : ℤ, m = some k → (∀ e ∈ edges, effectiveImportance e < (k : ℚ)) →
        rank_by_salience edges m = []) := by
  refine ⟨?_, ?_, ?_⟩
  · intro e he
    match m with
    | none => exact (List.perm_insertionSort scoreGE edges).mem_iff.mp he
    | some k =>
      have := (List.perm_insertionSort scoreGE _).mem_iff.mp he
      exact (List.mem_filter.mp this).1
  · cases m <;> rfl
  · intro k hk hall
    subst hk
    have hfil : edges.filter (fun e => decide ((k : ℚ) ≤ effectiveImportance e)) = [] := by
      apply List.filter_eq_nil_iff.mpr
      intro e he
      simp only [decide_eq_true_eq]
      exact not_le.mpr (hall e he)
    show (edges.filter (fun e => decide ((k : ℚ) ≤ effectiveImportance e))).insertionSort
        scoreGE = []
    rw [hfil]
    rfl

/-- Witness for C9 at a concrete input: a single fact of salience 3 with
threshold 9 is filtered out entirely. -/
theorem salience_rank_pure_witness :
    (∀ e ∈ [(⟨some 3, some 1, []⟩ : EdgeDict)], effectiveImportance e < ((9 : ℤ) : ℚ)) ∧
      rank_by_salience [⟨some 3, some 1, []⟩] (some 9) = [] :=
  ⟨by decide, (salience_rank_pure [⟨some 3, some 1, []⟩] (some 9)).2.2 9 rfl (by decide)⟩

/-! ## `routers/ingest.py` and `routers/recall.py` — scope keys -/

/-- A character of the class `[a-zA-Z0-9_-]` from the regex in
`_sanitize_id` (`routers/ingest.py` line 69). -/
def allowedIdChar (c : Char) : Bool :=
  ('a' ≤ c && c ≤ 'z') || ('A' ≤ c && c ≤ 'Z') || ('0' ≤ c && c ≤ '9') || c = '_' || c = '-'

/-- `_sanitize_id(value)` from `routers/ingest.py`:
`re.sub(r"[^a-zA-Z0-9_-]", "_", value)` replaces every character outside the
class with an underscore, character by character. -/
def _sanitize_id (value : Str) : Str :=
  value.map (fun c => if allowedIdChar c then c else '_')

/-- `_build_group_id(user_id, agent_id)` from `routers/ingest.py`: the
sanitized user id, with `"_" + sanitized agent id` appended when `agent_id` is
truthy (Python: `None` and the empty string are falsy). -/
def _build_group_id (user_id : Str) (agent_id : Option Str) : Str :=
  let uid := _sanitize_id user_id
  match agent_id with
  | some a => if a = [] then uid else uid ++ '_' :: _sanitize_id a
  | none => uid

/-- `_build_group_ids(user_id, agent_id)` from `routers/recall.py`: the raw
(unsanitized) user id, followed — when `agent_id` is truthy — by
`f"{user_id}:{agent_id}"`, also unsanitized and joined with a colon. -/
def _build_group_ids (user_id : Str) (agent_id : Option Str) : List Str :=
  match agent_id with
  | some a => if a = [] then [user_id] else [user_id, user_id ++ ':' :: a]
  | none => [user_id]

/-- Sanitizing a single character is idempotent: the replacement `'_'` and
every kept character belong to the allowed class. -/
theorem sanitizeChar_idem (c : Char) :
    (fun c => if allowedIdChar c then c else '_')
        ((fun c => if allowedIdChar c then c else '_') c) =
      (fun c => if allowedIdChar c then c else '_') c := by
  by_cases h : allowedIdChar c = true
  · simp [h]
  · simp only [h]
    simp [allowedIdChar]

/-- C8: the ingestion-side scope derivation is deterministic (it is a pure
function of its input, so equal inputs give equal outputs), sanitization is
idempotent, every character outside `[A-Za-z0-9_-]` is replaced by `'_'`
(position by position), and sanitizing `"user/1"` yields `"user_1"`. -/
theorem sanitize_scope_properties (s u : Str) (a : Option Str) :
    _sanitize_id (_sanitize_id s) = _sanitize_id s ∧
      (∀ c ∈ _sanitize_id s, allowedIdChar c = true) ∧
      (∀ i : ℕ, (_sanitize_id s)[i]? =
        (s[i]?).map (fun c => if allowedIdChar c then c else '_')) ∧
      _build_group_id u a = _build_group_id u a ∧
      _sanitize_id ("user/1".toList) = "user_1".toList := by
  refine ⟨?_, ?_, ?_, rfl, by decide⟩
  · unfold _sanitize_id
    rw [List.map_map]
    apply List.map_congr_left
    intro c _
    exact sanitizeChar_idem c
  · intro c hc
    obtain ⟨d, _, hd⟩ := List.mem_map.mp hc
    by_cases h : allowedIdChar d = true
    · rw [← hd]; simp [h]
    · rw [← hd]; simp only [h]; simp [allowedIdChar]
  · intro i
    unfold _sanitize_id
    exact List.getElem?_map ..

/-- C1 (refuted on the code): the recall-side `_build_group_ids` does not
return the ingestion-side scope keys.  At `user_id = "user/1"`,
`agent_id = "cto"` it returns the raw user id and the colon-joined
`"user/1:cto"`, while the ingestion-side `_build_group_id` produces the
sanitized `"user_1"` and underscore-joined `"user_1_cto"`; only the claimed
lengths (1 without an agent, 2 with one) hold. -/
theorem build_group_ids_mismatch :
    _build_group_ids ("user/1".toList) (some ("cto".toList)) =
        ["user/1".toList, "user/1:cto".toList] ∧
      _build_group_id ("user/1".toList) none = "user_1".toList ∧
      _build_group_id ("user/1".toList) (some ("cto".toList)) = "user_1_cto".toList ∧
      _build_group_ids ("user/1".toList) (some ("cto".toList)) ≠
        [_build_group_id ("user/1".toList) none,
         _build_group_id ("user/1".toList) (some ("cto".toList))] ∧
      (_build_group_ids ("user/1".toList) none).length = 1 ∧
      (_build_group_ids ("user/1".toList) (some ("cto".toList))).length = 2 := by
  decide

/-! ## `llm_compat.py` — `_strip_code_fences` -/

/-- Python `str.strip()` whitespace (the ASCII part): space, tab, newline,
carriage return, vertical tab, form feed; also the characters matched by the
regex class `\s` in the fence pattern. -/
def isPySpace (c : Char) : Bool :=
  c == ' ' || c == '\t' || c == '\n' || c == '\r' || c == '\x0b' || c == '\x0c'

/-- Python `text.strip()`: remove leading and trailing whitespace. -/
def pyStrip (s : Str) : Str :=
  ((s.dropWhile isPySpace).reverse.dropWhile isPySpace).reverse

/-- Python `text.split("\n")`: split on every newline, keeping empty pieces
(the result is always non-empty). -/
def pySplitNl : Str → List Str
  | [] => [[]]
  | c :: rest =>
    match pySplitNl rest with
    | [] => [[c]]
    | line :: lines => if c = '\n' then [] :: line :: lines else (c :: line) :: lines

/-- Python `"\n".join(lines)`. -/
def joinNl : List Str → Str
  | [] => []
  | [line] => line
  | line :: rest => line ++ '\n' :: joinNl rest

/-- `_strip_code_fences(text)` from `llm_compat.py`.

The source first strips `text`, then matches the anchored regex
`^(three backticks)(?:json)?\s*\n?(.*?)\n?\s*(three backticks)$` with
`re.DOTALL`.  Because the lazy group can absorb arbitrary characters
(including whitespace) and `group(1)` is stripped afterwards, that regex
matches exactly when the stripped text starts with a triple backtick,
optionally followed by `json` (the greedy `(?:json)?` consumes it whenever
present and the remainder can still close the fence — when it cannot, the
empty alternative cannot close it either), and the remainder ends with a
triple backtick; the returned `group(1).strip()` is the stripped remainder
between those delimiters.  When the regex does not match but the text starts
with a fence, the source drops the first line, additionally drops the last
line when it strips to a bare fence, rejoins with newlines and strips. -/
def stripCodeFences (text : Str) : Str :=
  let t := pyStrip text
  if "```".toList.isPrefixOf t then
    let u := t.drop 3
    let u2 := if "json".toList.isPrefixOf u then u.drop 4 else u
    if "```".toList.isSuffixOf u2 then
      pyStrip (u2.take (u2.length - 3))
    else
      let lines := pySplitNl t
      let kept :=
        if pyStrip (lines.getLastD []) = "```".toList then (lines.drop 1).dropLast
        else lines.drop 1
      pyStrip (joinNl kept)
  else t

example : stripCodeFences "```json\nhello\n```".toList = "hello".toList := by decide

example : stripCodeFences "```\nhello world\n```".toList = "hello world".toList := by decide

example : stripCodeFences "```json\nhello\nworld".toList = "hello\nworld".toList := by decide

example : stripCodeFences "  plain text ".toList = "plain text".toList := by decide

example : stripCodeFences "``````".toList = "".toList := by decide

example : stripCodeFences "```".toList = "".toList := by decide

/-- Dropping leading whitespace does nothing when the first character is not
whitespace. -/
theorem dropLeadWs_eq_self {t : Str} (h : ∀ c, t.head? = some c → isPySpace c = false) :
    t.dropWhile isPySpace = t := by
  cases t with
  | nil => rfl
  | cons c rest =>
    rw [List.dropWhile_cons, h c rfl]
    simp

/-- `pyStrip` does nothing when neither end of the string is whitespace. -/
theorem pyStrip_eq_self {t : Str}
    (h1 : ∀ c, t.head? = some c → isPySpace c = false)
    (h2 : ∀ c, t.getLast? = some c → isPySpace c = false) :
    pyStrip t = t := by
  unfold pyStrip
  rw [dropLeadWs_eq_self h1, dropLeadWs_eq_self (t := t.reverse) ?_, List.reverse_reverse]
  intro c hc
  rw [List.head?_reverse] at hc
  exact h2 c hc

theorem dropWhile_append_single {p : Char → Bool} {c : Char} (h : p c = true) (s : Str) :
    (s ++ [c]).dropWhile p = if s.dropWhile p = [] then [] else s.dropWhile p ++ [c] := by
  induction s with
  | nil => simp [List.dropWhile, h]
  | cons d rest ih =>
    by_cases hd : p d = true
    · simpa [List.dropWhile_cons, hd] using ih
    · have hd2 : p d = false := Bool.eq_false_iff.mpr hd
      simp [List.dropWhile_cons, hd2]

/-- Stripping ignores one trailing whitespace character. -/
theorem pyStrip_append_ws {c : Char} (h : isPySpace c = true) (s : Str) :
    pyStrip (s ++ [c]) = pyStrip s := by
  unfold pyStrip
  rw [dropWhile_append_single h]
  by_cases he : s.dropWhile isPySpace = []
  · simp [he]
  · rw [if_neg he]
    simp [List.reverse_append, List.dropWhile_cons, h]

/-- Stripping ignores one leading whitespace character. -/
theorem pyStrip_cons_ws {c : Char} (h : isPySpace c = true) (s : Str) :
    pyStrip (c :: s) = pyStrip s := by
  unfold pyStrip
  rw [List.dropWhile_cons]
  simp [h]

/-- Every character of the stripped string occurs in the original. -/
theorem mem_pyStrip {c : Char} {s : Str} (h : c ∈ pyStrip s) : c ∈ s := by
  unfold pyStrip at h
  rw [List.mem_reverse] at h
  have h2 := (List.dropWhile_sublist (l := (s.dropWhile isPySpace).reverse)
    (p := isPySpace)).subset h
  rw [List.mem_reverse] at h2
  exact (List.dropWhile_sublist (l := s) (p := isPySpace)).subset h2

theorem pySplitNl_ne_nil (s : Str) : pySplitNl s ≠ [] := by
  cases s with
  | nil => simp [pySplitNl]
  | cons c rest =>
    rcases hsplit : pySplitNl rest with _ | ⟨line, lines⟩
    · simp [pySplitNl, hsplit]
    · by_cases hc : c = '\n' <;> simp [pySplitNl, hsplit, hc]

theorem joinNl_cons_cons (c : Char) (line : Str) (lines : List Str) :
    joinNl ((c :: line) :: lines) = c :: joinNl (line :: lines) := by
  cases lines <;> rfl

/-- Splitting on newlines and rejoining with newlines is the identity. -/
theorem joinNl_pySplitNl (s : Str) : joinNl (pySplitNl s) = s := by
  induction s with
  | nil => rfl
  | cons c rest ih =>
    rcases hsplit : pySplitNl rest with _ | ⟨line, lines⟩
    · exact absurd hsplit (pySplitNl_ne_nil rest)
    · rw [hsplit] at ih
      by_cases hc : c = '\n'
      · subst hc
        simp only [pySplitNl, hsplit, if_pos rfl]
        show '\n' :: joinNl (line :: lines) = '\n' :: rest
        rw [ih]
      · simp only [pySplitNl, hsplit, if_neg hc]
        rw [joinNl_cons_cons, ih]

/-- Splitting a string whose first line is `xs` (no embedded newline). -/
theorem pySplitNl_append_no_nl (xs ys : Str) (h : '\n' ∉ xs) :
    pySplitNl (xs ++ '\n' :: ys) = xs :: pySplitNl ys := by
  induction xs with
  | nil =>
    rcases hsplit : pySplitNl ys with _ | ⟨line, lines⟩
    · exact absurd hsplit (pySplitNl_ne_nil ys)
    · simp [pySplitNl, hsplit]
  | cons d xs ih =>
    have hd : ¬ d = '\n' := fun hdn => h (List.mem_cons.mpr (Or.inl hdn.symm))
    have h2 : '\n' ∉ xs := fun hx => h (List.mem_cons.mpr (Or.inr hx))
    have ih2 := ih h2
    rcases hsplit : pySplitNl ys with _ | ⟨line, lines⟩
    · exact absurd hsplit (pySplitNl_ne_nil ys)
    · rw [hsplit] at ih2
      simp [pySplitNl, ih2, hd]

theorem getLastD_irrel {α : Type} {l : List α} (h : l ≠ []) (a b : α) :
    l.getLastD a = l.getLastD b := by
  cases l with
  | nil => exact absurd rfl h
  | cons c rest => rw [List.getLastD_cons, List.getLastD_cons]

/-- The last line produced by splitting is a suffix of the original string. -/
theorem pySplitNl_getLastD_suffix (s : Str) : List.IsSuffix ((pySplitNl s).getLastD []) s := by
  induction s with
  | nil => simp [pySplitNl]
  | cons c rest ih =>
    rcases hsplit : pySplitNl rest with _ | ⟨line, lines⟩
    · exact absurd hsplit (pySplitNl_ne_nil rest)
    · rw [hsplit] at ih
      by_cases hc : c = '\n'
      · subst hc
        have hgoal : pySplitNl ('\n' :: rest) = [] :: line :: lines := by
          simp [pySplitNl, hsplit]
        rw [hgoal, List.getLastD_cons]
        exact ih.trans (List.suffix_cons '\n' rest)
      · have hgoal : pySplitNl (c :: rest) = (c :: line) :: lines := by
          simp [pySplitNl, hsplit, hc]
        rw [hgoal]
        cases lines with
        | nil =>
          have hline : line = rest := by
            have h3 := joinNl_pySplitNl rest
            rw [hsplit] at h3
            exact h3
          subst hline
          exact List.suffix_refl _
        | cons l2 ls =>
          rw [List.getLastD_cons, getLastD_irrel (List.cons_ne_nil l2 ls) (c :: line) line]
          rw [List.getLastD_cons] at ih
          exact ih.trans (List.suffix_cons c rest)

theorem head_false_of_dropWhile_eq_self {p : Char → Bool} {l : Str}
    (h : l.dropWhile p = l) {c : Char} (hc : l.head? = some c) : p c = false := by
  cases l with
  | nil => cases hc
  | cons d rest =>
    rw [List.head?_cons] at hc
    injection hc with hcd
    subst hcd
    by_cases hd : p d = true
    · rw [List.dropWhile_cons, if_pos hd] at h
      have hlen := congrArg List.length h
      have hle := (List.dropWhile_sublist (l := rest) (p := p)).length_le
      simp only [List.length_cons] at hlen
      omega
    · exact Bool.eq_false_iff.mpr hd

/-- If stripping a non-empty string changes nothing, its ends are not
whitespace; here the trailing end. -/
theorem getLast_not_ws_of_stripped {l : Str} (h : pyStrip l = l) {c : Char}
    (hc : l.getLast? = some c) : isPySpace c = false := by
  have hlen1 := (List.dropWhile_sublist (l := l) (p := isPySpace)).length_le
  have hlen2 := (List.dropWhile_sublist (l := (l.dropWhile isPySpace).reverse)
    (p := isPySpace)).length_le
  have hlenstrip : (pyStrip l).length =
      ((l.dropWhile isPySpace).reverse.dropWhile isPySpace).length := by
    unfold pyStrip
    rw [List.length_reverse]
  have hself := congrArg List.length h
  rw [hlenstrip] at hself
  rw [List.length_reverse] at hlen2
  have h1 : l.dropWhile isPySpace = l :=
    (List.dropWhile_suffix isPySpace).eq_of_length (by omega)
  have h2 : l.reverse.dropWhile isPySpace = l.reverse := by
    have h3 := h
    unfold pyStrip at h3
    rw [h1] at h3
    have h4 := congrArg List.reverse h3
    rwa [List.reverse_reverse] at h4
  exact head_false_of_dropWhile_eq_self h2 (by rwa [List.head?_reverse])

/-- When the last character is not whitespace (or the string is empty after
the leading strip), `pyStrip` only removes leading whitespace, so its result
is a suffix of the input. -/
theorem pyStrip_suffix_of_getLast_not_ws {l : Str}
    (h : ∀ c, l.getLast? = some c → isPySpace c = false) : List.IsSuffix (pyStrip l) l := by
  rcases hd : l.dropWhile isPySpace with _ | ⟨d, rest⟩
  · unfold pyStrip
    rw [hd]
    exact List.nil_suffix
  · have hsuffix : List.IsSuffix (d :: rest) l := by
      rw [← hd]
      exact List.dropWhile_suffix isPySpace
    obtain ⟨t, ht⟩ := hsuffix
    have hlast : (d :: rest).getLast? = l.getLast? := by
      rw [← ht, List.getLast?_append]
      cases hgl : (d :: rest).getLast? with
      | none =>
        rw [List.getLast?_eq_none_iff] at hgl
        cases hgl
      | some x => rfl
    have hstep : ((d :: rest).reverse).dropWhile isPySpace = (d :: rest).reverse := by
      apply dropLeadWs_eq_self
      intro c hc
      rw [List.head?_reverse, hlast] at hc
      exact h c hc
    unfold pyStrip
    rw [hd, hstep, List.reverse_reverse]
    exact ⟨t, ht⟩

/-- A non-empty suffix has the same last element as the whole list. -/
theorem getLast?_of_suffix {l₁ l₂ : Str} (h : List.IsSuffix l₁ l₂) (hne : l₁ ≠ []) :
    l₁.getLast? = l₂.getLast? := by
  obtain ⟨t, ht⟩ := h
  rw [← ht, List.getLast?_append]
  cases hgl : l₁.getLast? with
  | none =>
    rw [List.getLast?_eq_none_iff] at hgl
    exact absurd hgl hne
  | some x => rfl

/-- The tail computation shared by both fully-fenced cases: dropping the three
closing backticks and stripping recovers the stripped inner content. -/
theorem fence_tail_strip (s : Str) :
    pyStrip (('\n' :: (s ++ "\n```".toList)).take
      (('\n' :: (s ++ "\n```".toList)).length - 3)) = pyStrip s := by
  have hu2 : '\n' :: (s ++ "\n```".toList) = ('\n' :: (s ++ ['\n'])) ++ "```".toList := by
    simp
  rw [hu2, List.length_append]
  have hlen : ('\n' :: (s ++ ['\n'])).length + "```".toList.length - 3 =
      ('\n' :: (s ++ ['\n'])).length := by
    simp
  rw [hlen, List.take_left]
  rw [pyStrip_cons_ws (by decide), pyStrip_append_ws (by decide)]

/-- A reply wrapped in a complete ```json fence maps to its stripped inner
content. -/
theorem stripCodeFences_wrapped_json (s : Str) :
    stripCodeFences ("```json\n".toList ++ (s ++ "\n```".toList)) = pyStrip s := by
  have hh : ("```json\n".toList ++ (s ++ "\n```".toList)).head? = some '`' := rfl
  have hl : ("```json\n".toList ++ (s ++ "\n```".toList)).getLast? = some '`' := by
    simp only [List.getLast?_append]
    rfl
  have ht : pyStrip ("```json\n".toList ++ (s ++ "\n```".toList)) =
      "```json\n".toList ++ (s ++ "\n```".toList) := by
    apply pyStrip_eq_self
    · intro d hd
      rw [hh] at hd
      injection hd with h2
      rw [← h2]
      decide
    · intro d hd
      rw [hl] at hd
      injection hd with h2
      rw [← h2]
      decide
  have hsufP : List.IsSuffix ("```".toList) ('\n' :: (s ++ "\n```".toList)) := by
    refine ⟨'\n' :: (s ++ ['\n']), ?_⟩
    simp
  have hsuf : "```".toList.isSuffixOf
      ((("```json\n".toList ++ (s ++ "\n```".toList)).drop 3).drop 4) = true :=
    (List.isSuffixOf_iff_suffix).mpr hsufP
  simp only [stripCodeFences]
  rw [ht]
  rw [if_pos (show ("```".toList.isPrefixOf
    ("```json\n".toList ++ (s ++ "\n```".toList))) = true from rfl)]
  rw [if_pos (show ("json".toList.isPrefixOf
    (("```json\n".toList ++ (s ++ "\n```".toList)).drop 3)) = true from rfl)]
  rw [if_pos hsuf]
  exact fence_tail_strip s

/-- A reply wrapped in a complete untagged fence maps to its stripped inner
content. -/
theorem stripCodeFences_wrapped_plain (s : Str) :
    stripCodeFences ("```\n".toList ++ (s ++ "\n```".toList)) = pyStrip s := by
  have hh : ("```\n".toList ++ (s ++ "\n```".toList)).head? = some '`' := rfl
  have hl : ("```\n".toList ++ (s ++ "\n```".toList)).getLast? = some '`' := by
    simp only [List.getLast?_append]
    rfl
  have ht : pyStrip ("```\n".toList ++ (s ++ "\n```".toList)) =
      "```\n".toList ++ (s ++ "\n```".toList) := by
    apply pyStrip_eq_self
    · intro d hd
      rw [hh] at hd
      injection hd with h2
      rw [← h2]
      decide
    · intro d hd
      rw [hl] at hd
      injection hd with h2
      rw [← h2]
      decide
  have hsufP : List.IsSuffix ("```".toList) ('\n' :: (s ++ "\n```".toList)) := by
    refine ⟨'\n' :: (s ++ ['\n']), ?_⟩
    simp
  have hsuf : "```".toList.isSuffixOf
      (("```\n".toList ++ (s ++ "\n```".toList)).drop 3) = true :=
    (List.isSuffixOf_iff_suffix).mpr hsufP
  have hjsonF : ("json".toList.isPrefixOf
      (("```\n".toList ++ (s ++ "\n```".toList)).drop 3)) = false := rfl
  have hjson : ¬ ("json".toList.isPrefixOf
      (("```\n".toList ++ (s ++ "\n```".toList)).drop 3)) = true := by
    simp [hjsonF]
  simp only [stripCodeFences]
  rw [ht]
  rw [if_pos (show ("```".toList.isPrefixOf
    ("```\n".toList ++ (s ++ "\n```".toList))) = true from rfl)]
  rw [if_neg hjson]
  rw [if_pos hsuf]
  exact fence_tail_strip s

/-- A reply with only a leading ```json fence line and no closing fence keeps
everything after the first line. -/
theorem stripCodeFences_partial (rest : Str) (hstr : pyStrip rest = rest) (hne : rest ≠ [])
    (hnotsuf : ¬ List.IsSuffix ("```".toList) rest) :
    stripCodeFences ("```json\n".toList ++ rest) = rest := by
  obtain ⟨c, hc⟩ : ∃ c, rest.getLast? = some c := by
    cases hgl : rest.getLast? with
    | none =>
      rw [List.getLast?_eq_none_iff] at hgl
      exact absurd hgl hne
    | some x => exact ⟨x, rfl⟩
  have hcns : isPySpace c = false := getLast_not_ws_of_stripped hstr hc
  have hh : ("```json\n".toList ++ rest).head? = some '`' := rfl
  have hl : ("```json\n".toList ++ rest).getLast? = some c := by
    rw [List.getLast?_append, hc]
    rfl
  have ht : pyStrip ("```json\n".toList ++ rest) = "```json\n".toList ++ rest := by
    apply pyStrip_eq_self
    · intro d hd
      rw [hh] at hd
      injection hd with h2
      rw [← h2]
      decide
    · intro d hd
      rw [hl] at hd
      injection hd with h2
      rw [← h2]
      exact hcns
  have hsufF : ¬ ("```".toList.isSuffixOf
      ((("```json\n".toList ++ rest).drop 3).drop 4)) = true := by
    intro habs
    have habs2 : List.IsSuffix ("```".toList) ('\n' :: rest) :=
      (List.isSuffixOf_iff_suffix).mp habs
    rcases List.suffix_cons_iff.mp habs2 with heq | hsuf2
    · injection heq with h1 h2
      exact absurd h1 (by decide)
    · exact hnotsuf hsuf2
  simp only [stripCodeFences]
  rw [ht]
  rw [if_pos (show ("```".toList.isPrefixOf ("```json\n".toList ++ rest)) = true from rfl)]
  rw [if_pos (show ("json".toList.isPrefixOf
    (("```json\n".toList ++ rest).drop 3)) = true from rfl)]
  rw [if_neg hsufF]
  have hsplit : pySplitNl ("```json\n".toList ++ rest) =
      "```json".toList :: pySplitNl rest :=
    pySplitNl_append_no_nl ("```json".toList) rest (by decide)
  rw [hsplit]
  have hlast2 : ("```json".toList :: pySplitNl rest).getLastD [] =
      (pySplitNl rest).getLastD [] := by
    rw [List.getLastD_cons]
    exact getLastD_irrel (pySplitNl_ne_nil rest) _ _
  rw [hlast2]
  have hln : ¬ pyStrip ((pySplitNl rest).getLastD []) = "```".toList := by
    intro habs
    have hsufLine : List.IsSuffix ((pySplitNl rest).getLastD []) rest :=
      pySplitNl_getLastD_suffix rest
    rcases hemp : (pySplitNl rest).getLastD [] with _ | ⟨d, ds⟩
    · rw [hemp] at habs
      exact absurd habs (by decide)
    · have hsufLine2 : List.IsSuffix (d :: ds) rest := hemp ▸ hsufLine
      have hgl : (d :: ds).getLast? = some c := by
        rw [getLast?_of_suffix hsufLine2 (List.cons_ne_nil d ds), hc]
      have hd2 : ∀ e, (d :: ds).getLast? = some e → isPySpace e = false := by
        intro e he
        rw [hgl] at he
        injection he with h3
        rw [← h3]
        exact hcns
      have hstripline := pyStrip_suffix_of_getLast_not_ws hd2
      rw [hemp] at habs
      rw [habs] at hstripline
      exact hnotsuf (hstripline.trans hsufLine2)
  rw [if_neg hln]
  show pyStrip (joinNl (pySplitNl rest)) = rest
  rw [joinNl_pySplitNl, hstr]

/-- A reply whose stripped form does not start with a fence is returned
stripped but otherwise unchanged. -/
theorem stripCodeFences_unfenced (t : Str)
    (h : ¬ List.IsPrefix ("```".toList) (pyStrip t)) :
    stripCodeFences t = pyStrip t := by
  simp only [stripCodeFences]
  rw [if_neg (fun habs => h ((List.isPrefixOf_iff_prefix).mp habs))]

/-- C5: fence stripping in `structured_complete` maps a reply entirely wrapped
in a triple-backtick fence (with or without the `json` tag) to its stripped
inner content — leaving no fence characters when the content itself has none —
maps a reply with only a leading fence line and no matching trailing fence to
the content after that line, and returns any reply without a leading fence
unchanged apart from surrounding whitespace. -/
theorem strip_code_fences_spec (s rest t : Str) :
    (stripCodeFences ("```json\n".toList ++ (s ++ "\n```".toList)) = pyStrip s ∧
      stripCodeFences ("```\n".toList ++ (s ++ "\n```".toList)) = pyStrip s ∧
      ('`' ∉ s → '`' ∉ stripCodeFences ("```json\n".toList ++ (s ++ "\n```".toList)))) ∧
    (pyStrip rest = rest → rest ≠ [] → ¬ List.IsSuffix ("```".toList) rest →
      stripCodeFences ("```json\n".toList ++ rest) = rest) ∧
    (¬ List.IsPrefix ("```".toList) (pyStrip t) → stripCodeFences t = pyStrip t) := by
  refine ⟨⟨stripCodeFences_wrapped_json s, stripCodeFences_wrapped_plain s, ?_⟩,
    fun h1 h2 h3 => stripCodeFences_partial rest h1 h2 h3,
    fun h => stripCodeFences_unfenced t h⟩
  intro hnb habs
  rw [stripCodeFences_wrapped_json s] at habs
  exact hnb (mem_pyStrip habs)

/-- Witness for C5 at concrete inputs, exercising each hypothesis. -/
theorem strip_code_fences_spec_witness :
    ('`' ∉ "hi".toList ∧ '`' ∉ stripCodeFences ("```json\n".toList ++
        ("hi".toList ++ "\n```".toList))) ∧
    (pyStrip "hi".toList = "hi".toList ∧ "hi".toList ≠ ([] : Str) ∧
      ¬ List.IsSuffix ("```".toList) ("hi".toList) ∧
      stripCodeFences ("```json\n".toList ++ "hi".toList) = "hi".toList) ∧
    (¬ List.IsPrefix ("```".toList) (pyStrip " plain ".toList) ∧
      stripCodeFences " plain ".toList = pyStrip " plain ".toList) := by
  refine ⟨⟨by decide, ?_⟩, ⟨by decide, by decide, by decide, ?_⟩, ⟨by decide, ?_⟩⟩
  · exact (strip_code_fences_spec "hi".toList [] []).1.2.2 (by decide)
  · exact (strip_code_fences_spec [] "hi".toList []).2.1 (by decide) (by decide) (by decide)
  · exact (strip_code_fences_spec [] [] " plain ".toList).2.2 (by decide)

/-! ## `llm_compat.py` — `_create_structured_completion`

The response-handling part of the shim (`llm_compat.py` lines 122–125) takes
the reply's message content (substituting `"{}"` for `None` or an empty
string), strips code fences, and calls pydantic's `model_validate_json`,
which parses the text as JSON and validates it against the response model.
JSON parsing and response-model validation are external library behaviour
(pydantic); they are modelled concretely below: a standard JSON grammar
parser, and validation that requires every schema field to be present with
the declared type or to have a declared default (pydantic's lax-mode string
coercions are not modelled; the response models of `entity_types.py` carry
`int` fields with `ge`/`le` bounds, `str` fields and `list[str]` fields). -/

/-- A JSON value.  Numbers are exact rationals (every JSON numeral denotes a
rational). -/
inductive Json where
  | null
  | bool (b : Bool)
  | num (q : ℚ)
  | str (s : Str)
  | arr (items : List Json)
  | obj (fields : List (Str × Json))

/-- JSON insignificant whitespace. -/
def isJsonWs (c : Char) : Bool :=
  c == ' ' || c == '\t' || c == '\n' || c == '\r'

def hexVal (c : Char) : Option Nat :=
  if '0' ≤ c ∧ c ≤ '9' then some (c.toNat - '0'.toNat)
  else if 'a' ≤ c ∧ c ≤ 'f' then some (c.toNat - 'a'.toNat + 10)
  else if 'A' ≤ c ∧ c ≤ 'F' then some (c.toNat - 'A'.toNat + 10)
  else none

def escChar : Char → Option Char
  | '"' => some '"'
  | '\\' => some '\\'
  | '/' => some '/'
  | 'b' => some '\x08'
  | 'f' => some '\x0c'
  | 'n' => some '\n'
  | 'r' => some '\r'
  | 't' => some '\t'
  | _ => none

/-- Parse the body of a JSON string literal (after the opening quote),
returning the decoded characters and the remaining input. -/
def parseStringBody : Str → Option (Str × Str)
  | [] => none
  | '"' :: rest => some ([], rest)
  | '\\' :: e :: rest =>
    if e = 'u' then
      match rest with
      | h1 :: h2 :: h3 :: h4 :: rest2 =>
        match hexVal h1, hexVal h2, hexVal h3, hexVal h4 with
        | some a, some b, some c, some d =>
          match parseStringBody rest2 with
          | none => none
          | some (body, r) =>
            some (Char.ofNat (((a * 16 + b) * 16 + c) * 16 + d) :: body, r)
        | _, _, _, _ => none
      | _ => none
    else
      match escChar e with
      | none => none
      | some c =>
        match parseStringBody rest with
        | none => none
        | some (body, r) => some (c :: body, r)
  | c :: rest =>
    match parseStringBody rest with
    | none => none
    | some (body, r) => some (c :: body, r)

def digitsToNat (ds : Str) : Nat :=
  ds.foldl (fun acc c => acc * 10 + (c.toNat - '0'.toNat)) 0

def parseExpTail (v : ℚ) (s : Str) : Option (Json × Str) :=
  let (eneg, s1) : Bool × Str :=
    match s with
    | '+' :: r => (false, r)
    | '-' :: r => (true, r)
    | _ => (false, s)
  match s1.takeWhile Char.isDigit, s1.dropWhile Char.isDigit with
  | [], _ => none
  | expDs, s2 =>
    let e := digitsToNat expDs
    some (Json.num (if eneg then v * mkRat 1 (10 ^ e) else v * mkRat (10 ^ e) 1), s2)

def parseExpOpt (v : ℚ) (s : Str) : Option (Json × Str) :=
  match s with
  | 'e' :: r => parseExpTail v r
  | 'E' :: r => parseExpTail v r
  | _ => some (Json.num v, s)

/-- Parse a JSON numeral: `-? int frac? exp?` with no leading zeros. -/
def parseNumber (s : Str) : Option (Json × Str) :=
  let (neg, s1) : Bool × Str :=
    match s with
    | '-' :: r => (true, r)
    | _ => (false, s)
  match s1.takeWhile Char.isDigit, s1.dropWhile Char.isDigit with
  | [], _ => none
  | intDs, s2 =>
    if 2 ≤ intDs.length ∧ intDs.headD '1' = '0' then none
    else
      let withSign : ℚ → ℚ := fun v => if neg then -v else v
      match s2 with
      | '.' :: r =>
        match r.takeWhile Char.isDigit, r.dropWhile Char.isDigit with
        | [], _ => none
        | fracDs, s3 =>
          parseExpOpt (withSign (mkRat (digitsToNat (intDs ++ fracDs))
            (10 ^ fracDs.length))) s3
      | _ => parseExpOpt (withSign (mkRat (digitsToNat intDs) 1)) s2

mutual

/-- Parse one JSON value, returning it and the remaining input.  `fuel`
bounds the recursion depth; the top-level entry point supplies enough fuel
for any input of the given length. -/
def parseVal : Nat → Str → Option (Json × Str)
  | 0, _ => none
  | fuel + 1, s =>
    match s.dropWhile isJsonWs with
    | [] => none
    | 'n' :: rest =>
      if "ull".toList.isPrefixOf rest then some (Json.null, rest.drop 3) else none
    | 't' :: rest =>
      if "rue".toList.isPrefixOf rest then some (Json.bool true, rest.drop 3) else none
    | 'f' :: rest =>
      if "alse".toList.isPrefixOf rest then some (Json.bool false, rest.drop 4) else none
    | '"' :: rest =>
      match parseStringBody rest with
      | none => none
      | some (body, r) => some (Json.str body, r)
    | '[' :: rest =>
      match rest.dropWhile isJsonWs with
      | ']' :: r => some (Json.arr [], r)
      | rest2 =>
        match parseItems fuel rest2 with
        | none => none
        | some (items, r) => some (Json.arr items, r)
    | '{' :: rest =>
      match rest.dropWhile isJsonWs with
      | '}' :: r => some (Json.obj [], r)
      | rest2 =>
        match parseMembers fuel rest2 with
        | none => none
        | some (fs, r) => some (Json.obj fs, r)
    | c :: rest => parseNumber (c :: rest)

/-- Parse the non-empty comma-separated items of a JSON array, up to and
including the closing bracket. -/
def parseItems : Nat → Str → Option (List Json × Str)
  | 0, _ => none
  | fuel + 1, s =>
    match parseVal fuel s with
    | none => none
    | some (j, r) =>
      match r.dropWhile isJsonWs with
      | ',' :: r2 =>
        match parseItems fuel r2 with
        | none => none
        | some (items, r3) => some (j :: items, r3)
      | ']' :: r2 => some ([j], r2)
      | _ => none

/-- Parse the non-empty comma-separated members of a JSON object, up to and
including the closing brace. -/
def parseMembers : Nat → Str → Option (List (Str × Json) × Str)
  | 0, _ => none
  | fuel + 1, s =>
    match s.dropWhile isJsonWs with
    | '"' :: rest =>
      match parseStringBody rest with
      | none => none
      | some (key, r) =>
        match r.dropWhile isJsonWs with
        | ':' :: r2 =>
          match parseVal fuel r2 with
          | none => none
          | some (v, r3) =>
            match r3.dropWhile isJsonWs with
            | ',' :: r4 =>
              match parseMembers fuel r4 with
              | none => none
              | some (fs, r5) => some ((key, v) :: fs, r5)
            | '}' :: r4 => some ([(key, v)], r4)
            | _ => none
        | _ => none
    | _ => none

end

/-- Parse a complete JSON document: one value with only whitespace around
it. -/
def jsonParse (s : Str) : Option Json :=
  match parseVal (2 * s.length + 2) s with
  | none => none
  | some (j, rest) => if rest.dropWhile isJsonWs = [] then some j else none

example : jsonParse "\x7b\x7d".toList = some (Json.obj []) := rfl

example : jsonParse " null ".toList = some Json.null := rfl

example : jsonParse "not json".toList = none := rfl

example :
    jsonParse "\x7b\"salience\": 5\x7d".toList =
      some (Json.obj [("salience".toList, Json.num 5)]) := by
  rfl

example :
    jsonParse "[1, \"two\", true]".toList =
      some (Json.arr [Json.num 1, Json.str "two".toList, Json.bool true]) := by
  rfl

/-- The field types occurring in the response models of `entity_types.py`:
bounded integers (`int` with `ge`/`le`), strings, and lists of strings. -/
inductive FieldType where
  | fint (lo hi : Option ℤ)
  | fstr
  | flistStr

/-- Does a JSON value inhabit a field type?  An integer field accepts exactly
the integral numerals within its bounds. -/
def checkType : FieldType → Json → Bool
  | .fint lo hi, .num q =>
    q.den = 1 &&
      (match lo with
       | some l => decide (l ≤ q.num)
       | none => true) &&
      (match hi with
       | some h => decide (q.num ≤ h)
       | none => true)
  | .fstr, .str _ => true
  | .flistStr, .arr items =>
    items.all (fun j =>
      match j with
      | .str _ => true
      | _ => false)
  | _, _ => false

/-- One field of a response model: its name, type, and — when the pydantic
`Field` declares one — its default value.  A field with no default is
required. -/
structure FieldSpec where
  name : Str
  type : FieldType
  default : Option Json

/-- A response model (a pydantic `BaseModel` subclass) as a set of fields. -/
structure ModelSchema where
  fields : List FieldSpec

/-- Python dict lookup on the parsed JSON object (later duplicate keys win,
as in `json` / pydantic parsing). -/
def lookupField (kvs : List (Str × Json)) (key : Str) : Option Json :=
  kvs.foldl (fun acc kv => if kv.1 = key then some kv.2 else acc) none

/-- Validate a parsed JSON object against the schema fields: every field must
be present with a value of its type, or absent with a declared default; a
present value of the wrong type, or an absent required field, fails.  Extra
keys are ignored (pydantic's default).  Returns the validated model. -/
def validateFields (fields : List FieldSpec) (kvs : List (Str × Json)) :
    Option (List (Str × Json)) :=
  match fields with
  | [] => some []
  | f :: rest =>
    match lookupField kvs f.name with
    | some v =>
      if checkType f.type v then
        match validateFields rest kvs with
        | none => none
        | some out => some ((f.name, v) :: out)
      else none
    | none =>
      match f.default with
      | some d =>
        match validateFields rest kvs with
        | none => none
        | some out => some ((f.name, d) :: out)
      | none => none

/-- Validate any parsed JSON document: a response model only accepts a JSON
object. -/
def validateJson (schema : ModelSchema) : Json → Option (List (Str × Json))
  | Json.obj kvs => validateFields schema.fields kvs
  | _ => none

/-- The spec's §7 error taxonomy for the shim: the raw (fence-stripped) text
is carried for diagnostics. -/
inductive SchemaValidationError where
  | jsonParseError (raw : Str)
  | validationError (raw : Str)

/-- `response.choices[0].message.content or "{}"` (`llm_compat.py` line 123):
Python `or` substitutes `"{}"` for both `None` and the empty string. -/
def effectiveContent (content : Option Str) : Str :=
  match content with
  | none => "\x7b\x7d".toList
  | some s => if s = [] then "\x7b\x7d".toList else s

/-- The response-handling pipeline of `_create_structured_completion`
(`llm_compat.py` lines 122–125): substitute `"{}"` for a missing reply,
strip code fences, then parse and validate via the response model
(pydantic `model_validate_json`); any parse or validation failure is a
`SchemaValidationError` (§7), never a partial result. -/
def structured_complete (schema : ModelSchema) (reply : Option Str) :
    Except SchemaValidationError (List (Str × Json)) :=
  let stripped := stripCodeFences (effectiveContent reply)
  match jsonParse stripped with
  | none => .error (.jsonParseError stripped)
  | some j =>
    match validateJson schema j with
    | some out => .ok out
    | none => .error (.validationError stripped)

/-- What it means for a validated model to satisfy the schema: every schema
field is bound, either to a value of the field's type or to the field's own
declared default. -/
def satisfiesSchema (schema : ModelSchema) (out : List (Str × Json)) : Prop :=
  ∀ f ∈ schema.fields, ∃ v, (f.name, v) ∈ out ∧
    (checkType f.type v = true ∨ f.default = some v)

/-- Validation soundness: a successfully validated object satisfies the
schema. -/
theorem validateFields_sound {fields : List FieldSpec} {kvs out : List (Str × Json)}
    (h : validateFields fields kvs = some out) :
    ∀ f ∈ fields, ∃ v, (f.name, v) ∈ out ∧
      (checkType f.type v = true ∨ f.default = some v) := by
  induction fields generalizing out with
  | nil => intro f hf; cases hf
  | cons g rest ih =>
    intro f hf
    rw [validateFields] at h
    rcases List.mem_cons.mp hf with hfg | hfrest
    · subst hfg
      match hlk : lookupField kvs f.name with
      | some v =>
        rw [hlk] at h
        dsimp only at h
        by_cases hct : checkType f.type v = true
        · rw [if_pos hct] at h
          match hrest : validateFields rest kvs with
          | none => rw [hrest] at h; cases h
          | some out2 =>
            rw [hrest] at h
            injection h with hout
            exact ⟨v, by rw [← hout]; exact List.mem_cons_self _ _, Or.inl hct⟩
        · rw [if_neg hct] at h; cases h
      | none =>
        rw [hlk] at h
        dsimp only at h
        match hdef : f.default with
        | some d =>
          rw [hdef] at h
          dsimp only at h
          match hrest : validateFields rest kvs with
          | none => rw [hrest] at h; cases h
          | some out2 =>
            rw [hrest] at h
            injection h with hout
            exact ⟨d, by rw [← hout]; exact List.mem_cons_self _ _, Or.inr rfl⟩
        | none => rw [hdef] at h; cases h
    · match hlk : lookupField kvs g.name with
      | some v =>
        rw [hlk] at h
        dsimp only at h
        by_cases hct : checkType g.type v = true
        · rw [if_pos hct] at h
          match hrest : validateFields rest kvs with
          | none => rw [hrest] at h; cases h
          | some out2 =>
            rw [hrest] at h
            injection h with hout
            obtain ⟨w, hw1, hw2⟩ := ih hrest f hfrest
            exact ⟨w, by rw [← hout]; exact List.mem_cons_of_mem _ hw1, hw2⟩
        · rw [if_neg hct] at h; cases h
      | none =>
        rw [hlk] at h
        dsimp only at h
        match hdef : g.default with
        | some d =>
          rw [hdef] at h
          dsimp only at h
          match hrest : validateFields rest kvs with
          | none => rw [hrest] at h; cases h
          | some out2 =>
            rw [hrest] at h
            injection h with hout
            obtain ⟨w, hw1, hw2⟩ := ih hrest f hfrest
            exact ⟨w, by rw [← hout]; exact List.mem_cons_of_mem _ hw1, hw2⟩
        | none => rw [hdef] at h; cases h

/-- C2: `structured_complete` either returns an object satisfying the target
schema or fails with a `SchemaValidationError`: a reply whose fence-stripped
text does not parse as JSON yields a parse error, a reply that parses but
fails schema validation (for example by omitting a required field) yields a
validation error, and every successful result satisfies the schema — no
partial object is ever returned. -/
theorem structured_complete_schema_or_error (schema : ModelSchema) (reply : Str) :
    (jsonParse (stripCodeFences (effectiveContent (some reply))) = none →
      structured_complete schema (some reply) =
        .error (.jsonParseError (stripCodeFences (effectiveContent (some reply))))) ∧
      (∀ j, jsonParse (stripCodeFences (effectiveContent (some reply))) = some j →
        validateJson schema j = none →
        structured_complete schema (some reply) =
          .error (.validationError (stripCodeFences (effectiveContent (some reply))))) ∧
      (∀ out, structured_complete schema (some reply) = .ok out →
        satisfiesSchema schema out) := by
  refine ⟨?_, ?_, ?_⟩
  · intro hp
    rw [structured_complete, hp]
  · intro j hp hv
    rw [structured_complete, hp]
    show (match validateJson schema j with
      | some out => Except.ok out
      | none => Except.error (SchemaValidationError.validationError
          (stripCodeFences (effectiveContent (some reply))))) = _
    rw [hv]
  · intro out hok
    rw [structured_complete] at hok
    match hp : jsonParse (stripCodeFences (effectiveContent (some reply))) with
    | none => rw [hp] at hok; cases hok
    | some j =>
      rw [hp] at hok
      dsimp only at hok
      match hv : validateJson schema j with
      | none =>
        rw [hv] at hok
        cases hok
      | some out2 =>
        rw [hv] at hok
        injection hok with hout
        subst hout
        match j, hv with
        | Json.obj kvs, hv => exact validateFields_sound hv
  -- the `.ok` case can only arise from a JSON object (validateJson rejects
  -- every other constructor), so validation soundness applies

/-- Witness for C2: a schema with one required bounded-integer field
(`salience`), a non-JSON reply (parse error), a `"{}"` reply omitting the
required field (validation error), and a well-formed fenced reply (success
satisfying the schema). -/
theorem structured_complete_schema_or_error_witness :
    (jsonParse (stripCodeFences (effectiveContent (some "not json".toList))) = none ∧
      structured_complete
          (ModelSchema.mk [⟨"salience".toList, .fint (some 1) (some 10), none⟩])
          (some "not json".toList) =
        .error (.jsonParseError "not json".toList)) ∧
      (structured_complete
          (ModelSchema.mk [⟨"salience".toList, .fint (some 1) (some 10), none⟩])
          (some "\x7b\x7d".toList) =
        .error (.validationError "\x7b\x7d".toList)) ∧
      satisfiesSchema
        (ModelSchema.mk [⟨"salience".toList, .fint (some 1) (some 10), none⟩])
        [("salience".toList, Json.num 5)] := by
  refine ⟨⟨rfl, ?_⟩, ?_, ?_⟩
  · exact (structured_complete_schema_or_error
      (ModelSchema.mk [⟨"salience".toList, .fint (some 1) (some 10), none⟩])
      "not json".toList).1 rfl
  · exact (structured_complete_schema_or_error
      (ModelSchema.mk [⟨"salience".toList, .fint (some 1) (some 10), none⟩])
      "\x7b\x7d".toList).2.1 (Json.obj []) rfl rfl
  · exact (structured_complete_schema_or_error
      (ModelSchema.mk [⟨"salience".toList, .fint (some 1) (some 10), none⟩])
      "```json\n\x7b\"salience\": 5\x7d\n```".toList).2.2
      [("salience".toList, Json.num 5)] rfl

/-! ## `entity_types.py` — the four extraction templates as schemas -/

/-- `Fact` from `entity_types.py`: `salience: int ∈ [1,10]`, default 5. -/
def factSchema : ModelSchema :=
  ⟨[⟨"salience".toList, .fint (some 1) (some 10), some (Json.num 5)⟩]⟩

/-- `Decision` from `entity_types.py`: reasoning/alternatives/outcome with
defaults, `salience` default 8. -/
def decisionSchema : ModelSchema :=
  ⟨[⟨"reasoning".toList, .fstr, some (Json.str [])⟩,
    ⟨"alternatives".toList, .flistStr, some (Json.arr [])⟩,
    ⟨"outcome".toList, .fstr, some (Json.str "pending".toList)⟩,
    ⟨"salience".toList, .fint (some 1) (some 10), some (Json.num 8)⟩]⟩

/-- `Failure` from `entity_types.py`: root_cause/prevention with defaults,
`severity ∈ [1,10]` default 7, `salience` default 9. -/
def failureSchema : ModelSchema :=
  ⟨[⟨"root_cause".toList, .fstr, some (Json.str [])⟩,
    ⟨"prevention".toList, .fstr, some (Json.str [])⟩,
    ⟨"severity".toList, .fint (some 1) (some 10), some (Json.num 7)⟩,
    ⟨"salience".toList, .fint (some 1) (some 10), some (Json.num 9)⟩]⟩

/-- `Reflection` from `entity_types.py`: `pattern` with default,
`salience` default 9. -/
def reflectionSchema : ModelSchema :=
  ⟨[⟨"pattern".toList, .fstr, some (Json.str [])⟩,
    ⟨"salience".toList, .fint (some 1) (some 10), some (Json.num 9)⟩]⟩

/-- Validating the empty JSON object against a schema all of whose fields
have defaults yields the all-defaults model. -/
theorem validateFields_empty_obj (fields : List FieldSpec)
    (h : ∀ f ∈ fields, f.default.isSome = true) :
    validateFields fields [] =
      some (fields.map (fun f => (f.name, f.default.getD Json.null))) := by
  induction fields with
  | nil => rfl
  | cons f rest ih =>
    have hf := h f (List.mem_cons_self f rest)
    obtain ⟨d, hd⟩ := Option.isSome_iff_exists.mp hf
    have hlk : lookupField [] f.name = none := rfl
    simp [validateFields, hlk, hd,
      ih (fun g hg => h g (List.mem_cons.mpr (Or.inr hg)))]

/-- C10: a missing (`None`) or empty reply is replaced by the literal text
`"{}"` before fence stripping and validation, so for every schema whose
fields all have defaults the call succeeds and returns the all-defaults
object. -/
theorem structured_complete_empty_reply (schema : ModelSchema)
    (hdef : ∀ f ∈ schema.fields, f.default.isSome = true) :
    effectiveContent none = "\x7b\x7d".toList ∧
      effectiveContent (some []) = "\x7b\x7d".toList ∧
      structured_complete schema none =
        .ok (schema.fields.map (fun f => (f.name, f.default.getD Json.null))) ∧
      structured_complete schema (some []) =
        .ok (schema.fields.map (fun f => (f.name, f.default.getD Json.null))) := by
  have hval := validateFields_empty_obj schema.fields hdef
  refine ⟨rfl, rfl, ?_, ?_⟩
  · show (match validateFields schema.fields [] with
      | some out => Except.ok out
      | none => Except.error (SchemaValidationError.validationError
          ("\x7b\x7d".toList))) = _
    rw [hval]
  · show (match validateFields schema.fields [] with
      | some out => Except.ok out
      | none => Except.error (SchemaValidationError.validationError
          ("\x7b\x7d".toList))) = _
    rw [hval]

/-- Witness for C10 on the `Fact` template: an absent reply yields the
all-defaults object `{salience: 5}`, and an empty reply does the same. -/
theorem structured_complete_empty_reply_witness :
    (∀ f ∈ factSchema.fields, f.default.isSome = true) ∧
      structured_complete factSchema none = .ok [("salience".toList, Json.num 5)] ∧
      structured_complete factSchema (some []) =
        .ok [("salience".toList, Json.num 5)] :=
  ⟨by decide,
    (structured_complete_empty_reply factSchema (by decide)).2.2.1,
    (structured_complete_empty_reply factSchema (by decide)).2.2.2⟩

/-! ## `routers/ingest.py` — single and bulk ingestion

Datetimes come from Python's `datetime` library, which is external; the
embedding is parameterised over an abstract datetime type `DT` together with
the library operations the router uses (`fromisoformat`, which returns `none`
where Python raises `ValueError`; `now`, frozen for the request; `strftime`
with the episode-name format; `isoformat`).  The graphiti backend is
external and stateful (each `add_episode` mutates the graph), so it is
modelled as a state-passing function that either returns extracted
nodes/edges or fails (Python: raises). -/

/-- The `datetime` operations used by `routers/ingest.py`. -/
structure PyEnv (DT : Type) where
  fromisoformat : Str → Option DT
  now : DT
  strftime : DT → Str
  isoformat : DT → Str

/-- `EpisodeType` from graphiti, as mapped by `_parse_source_type`. -/
inductive EpisodeType where
  | message
  | text
  | json
deriving DecidableEq, Repr

/-- The fields of `IngestRequest` (`routers/ingest.py`). -/
structure IngestRequest where
  content : Str
  user_id : Str
  agent_id : Option Str
  session_id : Option Str
  source : Str
  reference_time : Option Str
deriving DecidableEq, Repr

/-- `_parse_source_type(source)`: `mapping.get(source, EpisodeType.message)`. -/
def _parse_source_type (source : Str) : EpisodeType :=
  if source = "message".toList then .message
  else if source = "text".toList then .text
  else if source = "json".toList then .json
  else .message

/-- `_parse_reference_time(ref_time)` from `routers/ingest.py`: when
`ref_time` is truthy (not `None`, not empty), try `datetime.fromisoformat`
and swallow the `ValueError` on failure; in every non-parsing case return
`datetime.now(timezone.utc)`. -/
def _parse_reference_time {DT : Type} (env : PyEnv DT) (ref_time : Option Str) : DT :=
  match ref_time with
  | some s =>
    if s = [] then env.now
    else
      match env.fromisoformat s with
      | some d => d
      | none => env.now
  | none => env.now

/-- The arguments the router passes to `graphiti.add_episode`. -/
structure EpisodeArgs (DT : Type) where
  name : Str
  episode_body : Str
  source_description : Str
  reference_time : DT
  source : EpisodeType
  group_id : Str
  saga : Option Str

/-- A node of an `add_episode` result (`label` is probed with `hasattr`). -/
structure NodeResult where
  uuid : Str
  name : Str
  label : Option Str
  group_id : Str

/-- An edge of an `add_episode` result. -/
structure EdgeResult (DT : Type) where
  uuid : Str
  fact : Str
  source_node_uuid : Str
  target_node_uuid : Str
  valid_at : Option DT
  invalid_at : Option DT

/-- The result of a successful `graphiti.add_episode` call. -/
structure AddEpisodeResult (DT : Type) where
  nodes : List NodeResult
  edges : List (EdgeResult DT)

/-- `f"memory_{body.user_id}_{ref_time.strftime('%Y%m%d_%H%M%S')}"`. -/
def episodeName {DT : Type} (env : PyEnv DT) (ep : IngestRequest) : Str :=
  "memory_".toList ++ ep.user_id ++ '_' ::
    env.strftime (_parse_reference_time env ep.reference_time)

/-- The `add_episode` arguments built by the `ingest` and `ingest_bulk`
handlers for one request. -/
def episodeArgs {DT : Type} (env : PyEnv DT) (ep : IngestRequest) : EpisodeArgs DT :=
  { name := episodeName env ep
    episode_body := ep.content
    source_description := "Agent memory for ".toList ++ ep.user_id
    reference_time := _parse_reference_time env ep.reference_time
    source := _parse_source_type ep.source
    group_id := _build_group_id ep.user_id ep.agent_id
    saga := ep.session_id }

/-- One entity of the single-ingest response. -/
structure EntityOut where
  uuid : Str
  name : Str
  typeLabel : Str
  group_id : Str

/-- One edge of the single-ingest response. -/
structure EdgeOut where
  uuid : Str
  fact : Str
  source_node : Str
  target_node : Str
  valid_at : Option Str
  invalid_at : Option Str

/-- The single-ingest response body. -/
structure IngestResponse where
  status : Str
  episode : Str
  entities_extracted : Nat
  edges_extracted : Nat
  entities : List EntityOut
  edges : List EdgeOut

/-- The entity-formatting loop of `ingest` (`routers/ingest.py` lines
135–144): `node.label if hasattr(node, "label") else "Entity"`. -/
def formatEntities (nodes : List NodeResult) : List EntityOut :=
  nodes.map (fun n => ⟨n.uuid, n.name, n.label.getD "Entity".toList, n.group_id⟩)

/-- The edge-formatting loop of `ingest` (lines 146–161): validity bounds
become ISO strings or stay `None`. -/
def formatEdges {DT : Type} (env : PyEnv DT) (edges : List (EdgeResult DT)) : List EdgeOut :=
  edges.map (fun e => ⟨e.uuid, e.fact, e.source_node_uuid, e.target_node_uuid,
    e.valid_at.map env.isoformat, e.invalid_at.map env.isoformat⟩)

/-- The `ingest` handler: build the episode arguments, call the backend, and
either reshape the result with `status: ok` or surface the exception as an
HTTP 500. -/
def ingest {DT : Type} (env : PyEnv DT)
    (add_episode : EpisodeArgs DT → Except Str (AddEpisodeResult DT))
    (body : IngestRequest) : Except (Nat × Str) IngestResponse :=
  match add_episode (episodeArgs env body) with
  | .error e => .error (500, e)
  | .ok result =>
    let entities := formatEntities result.nodes
    let edges := formatEdges env result.edges
    .ok { status := "ok".toList
          episode := episodeName env body
          entities_extracted := entities.length
          edges_extracted := edges.length
          entities := entities
          edges := edges }

/-- One slot of the bulk-ingest `results` list: either
`{episode, entities, edges, status: ok}` or `{episode, status: error,
error}`. -/
structure BulkItemResult where
  episode : Str
  entities : Option Nat
  edges : Option Nat
  status : Str
  error : Option Str
deriving DecidableEq, Repr

/-- One iteration of the `ingest_bulk` loop: build the arguments, call the
(stateful) backend, and record either the success counts or the caught
exception message in this item's slot. -/
def processItem {DT S : Type} (env : PyEnv DT)
    (add : S → EpisodeArgs DT → S × Except Str (AddEpisodeResult DT))
    (st : S) (ep : IngestRequest) : S × BulkItemResult :=
  match add st (episodeArgs env ep) with
  | (st2, .ok result) =>
    (st2, ⟨episodeName env ep, some result.nodes.length, some result.edges.length,
      "ok".toList, none⟩)
  | (st2, .error e) =>
    (st2, ⟨episodeName env ep, none, none, "error".toList, some e⟩)

/-- The `ingest_bulk` loop over `body.episodes`, strictly sequential and in
submission order, threading the backend state. -/
def ingestBulkRun {DT S : Type} (env : PyEnv DT)
    (add : S → EpisodeArgs DT → S × Except Str (AddEpisodeResult DT)) :
    S → List IngestRequest → S × List BulkItemResult
  | st, [] => (st, [])
  | st, ep :: rest =>
    let s2r := processItem env add st ep
    let s3rs := ingestBulkRun env add s2r.1 rest
    (s3rs.1, s2r.2 :: s3rs.2)

/-- The bulk-ingest response body. -/
structure BulkResponse where
  status : Str
  results : List BulkItemResult

/-- The `ingest_bulk` handler. -/
def ingest_bulk {DT S : Type} (env : PyEnv DT)
    (add : S → EpisodeArgs DT → S × Except Str (AddEpisodeResult DT))
    (st : S) (episodes : List IngestRequest) : BulkResponse :=
  ⟨"ok".toList, (ingestBulkRun env add st episodes).2⟩

theorem ingestBulkRun_length {DT S : Type} (env : PyEnv DT)
    (add : S → EpisodeArgs DT → S × Except Str (AddEpisodeResult DT))
    (episodes : List IngestRequest) :
    ∀ st, (ingestBulkRun env add st episodes).2.length = episodes.length := by
  induction episodes with
  | nil => intro st; rfl
  | cons ep rest ih =>
    intro st
    rw [ingestBulkRun]
    simp only [List.length_cons]
    rw [ih]

theorem ingestBulkRun_take {DT S : Type} (env : PyEnv DT)
    (add : S → EpisodeArgs DT → S × Except Str (AddEpisodeResult DT))
    (episodes : List IngestRequest) :
    ∀ k st, (ingestBulkRun env add st (episodes.take k)).2 =
      (ingestBulkRun env add st episodes).2.take k := by
  induction episodes with
  | nil =>
    intro k st
    rw [List.take_nil]
    cases k <;> rfl
  | cons ep rest ih =>
    intro k st
    cases k with
    | zero => rfl
    | succ k2 =>
      rw [List.take_succ_cons, ingestBulkRun, ingestBulkRun]
      simp only [List.take_succ_cons]
      rw [ih]

theorem ingestBulkRun_get? {DT S : Type} (env : PyEnv DT)
    (add : S → EpisodeArgs DT → S × Except Str (AddEpisodeResult DT))
    (episodes : List IngestRequest) :
    ∀ i st, (ingestBulkRun env add st episodes).2[i]? =
      (episodes[i]?).map (fun ep =>
        (processItem env add (ingestBulkRun env add st (episodes.take i)).1 ep).2) := by
  induction episodes with
  | nil => intro i st; cases i <;> rfl
  | cons ep rest ih =>
    intro i st
    cases i with
    | zero => simp [ingestBulkRun]
    | succ i2 =>
      rw [ingestBulkRun]
      simp only [List.getElem?_cons_succ, List.take_succ_cons]
      rw [ih]
      rfl

theorem processItem_error {DT S : Type} (env : PyEnv DT)
    (add : S → EpisodeArgs DT → S × Except Str (AddEpisodeResult DT))
    (st : S) (ep : IngestRequest) (msg : Str)
    (h : (add st (episodeArgs env ep)).2 = .error msg) :
    (processItem env add st ep).2 =
      ⟨episodeName env ep, none, none, "error".toList, some msg⟩ := by
  rcases h2 : add st (episodeArgs env ep) with ⟨st2, r⟩
  rw [h2] at h
  dsimp at h
  subst h
  rw [processItem, h2]

/-- C6: bulk ingest processes its N items sequentially in submission order
and returns exactly N result entries: the result list has the input's
length, processing a prefix of the batch yields the corresponding prefix of
the results (so an item's outcome is unaffected by later items), the i-th
entry is exactly the outcome of processing the i-th item against the state
reached after the first i items, and an item whose backend call fails
occupies its own slot with `status: error` and the caught message. -/
theorem ingest_bulk_sequential {DT S : Type} (env : PyEnv DT)
    (add : S → EpisodeArgs DT → S × Except Str (AddEpisodeResult DT))
    (s0 : S) (episodes : List IngestRequest) :
    (ingest_bulk env add s0 episodes).results.length = episodes.length ∧
      (∀ k, (ingest_bulk env add s0 (episodes.take k)).results =
        (ingest_bulk env add s0 episodes).results.take k) ∧
      (∀ i, (ingest_bulk env add s0 episodes).results[i]? =
        (episodes[i]?).map (fun ep =>
          (processItem env add
            (ingestBulkRun env add s0 (episodes.take i)).1 ep).2)) ∧
      (∀ i ep msg, episodes[i]? = some ep →
        (add (ingestBulkRun env add s0 (episodes.take i)).1 (episodeArgs env ep)).2 =
          .error msg →
        (ingest_bulk env add s0 episodes).results[i]? =
          some ⟨episodeName env ep, none, none, "error".toList, some msg⟩) := by
  refine ⟨ingestBulkRun_length env add episodes s0,
    fun k => ingestBulkRun_take env add episodes k s0,
    fun i => ingestBulkRun_get? env add episodes i s0, ?_⟩
  intro i ep msg hep herr
  have h3 := ingestBulkRun_get? env add episodes i s0
  rw [hep] at h3
  simp only [Option.map_some'] at h3
  rw [processItem_error env add _ ep msg herr] at h3
  exact h3

/-- C7: `_parse_reference_time` returns the parsed datetime whenever
`fromisoformat` succeeds on a non-empty string, and falls back to the
current UTC time when parsing fails or no string is supplied; consequently a
single ingest whose `reference_time` is unparsable still succeeds with
`status: ok` (using the current time), provided the backend call itself
succeeds. -/
theorem ingest_reference_time_fallback {DT : Type} (env : PyEnv DT) (s : Str)
    (add : EpisodeArgs DT → Except Str (AddEpisodeResult DT)) (body : IngestRequest) :
    (s ≠ [] → ∀ d, env.fromisoformat s = some d →
      _parse_reference_time env (some s) = d) ∧
      (env.fromisoformat s = none → _parse_reference_time env (some s) = env.now) ∧
      _parse_reference_time env none = env.now ∧
      (body.reference_time = some s → env.fromisoformat s = none →
        ∀ r, add (episodeArgs env body) = .ok r →
        ∃ resp, ingest env add body = .ok resp ∧ resp.status = "ok".toList ∧
          (episodeArgs env body).reference_time = env.now) := by
  refine ⟨?_, ?_, rfl, ?_⟩
  · intro hne d hparse
    rw [_parse_reference_time, if_neg hne, hparse]
  · intro hparse
    by_cases he : s = []
    · rw [_parse_reference_time, if_pos he]
    · rw [_parse_reference_time, if_neg he, hparse]
  · intro href hparse r hok
    refine ⟨_, by rw [ingest, hok], rfl, ?_⟩
    show _parse_reference_time env body.reference_time = env.now
    rw [href]
    by_cases he : s = []
    · rw [_parse_reference_time, if_pos he]
    · rw [_parse_reference_time, if_neg he, hparse]

/-- A concrete datetime environment for exercising the bulk-ingest theorem:
parsing always fails, the frozen now formats to a fixed stamp. -/
def sampleEnv : PyEnv Unit :=
  ⟨fun _ => none, (), fun _ => "20240101_000000".toList, fun _ => []⟩

/-- A concrete backend whose second call (state 1) raises. -/
def sampleAdd : Nat → EpisodeArgs Unit → Nat × Except Str (AddEpisodeResult Unit) :=
  fun st _ =>
    (st + 1, if st = 1 then .error "boom".toList else .ok ⟨[], []⟩)

/-- A concrete ingest request. -/
def sampleReq (content : String) : IngestRequest :=
  ⟨content.toList, "nad".toList, none, none, "message".toList, none⟩

/-- Witness for C6: a 2-item batch whose second backend call fails yields
exactly two entries — one `ok`, one `error` in its own slot — and the failed
slot is the one the theorem predicts. -/
theorem ingest_bulk_sequential_witness :
    (ingest_bulk sampleEnv sampleAdd 0
        [sampleReq "First event", sampleReq "Second event"]).results =
      [⟨"memory_nad_20240101_000000".toList, some 0, some 0, "ok".toList, none⟩,
       ⟨"memory_nad_20240101_000000".toList, none, none, "error".toList,
         some "boom".toList⟩] ∧
      ([sampleReq "First event", sampleReq "Second event"][1]? =
        some (sampleReq "Second event")) ∧
      (ingest_bulk sampleEnv sampleAdd 0
        [sampleReq "First event", sampleReq "Second event"]).results[1]? =
        some ⟨episodeName sampleEnv (sampleReq "Second event"), none, none,
          "error".toList, some "boom".toList⟩ :=
  ⟨rfl, rfl,
    (ingest_bulk_sequential sampleEnv sampleAdd 0
      [sampleReq "First event", sampleReq "Second event"]).2.2.2 1
      (sampleReq "Second event") "boom".toList rfl rfl⟩

/-- A datetime environment for the reference-time witness: `fromisoformat`
always fails. -/
def fallbackEnv : PyEnv Unit :=
  ⟨fun _ => none, (), fun _ => "T".toList, fun _ => []⟩

/-- A backend that always succeeds with an empty extraction. -/
def fallbackAdd : EpisodeArgs Unit → Except Str (AddEpisodeResult Unit) :=
  fun _ => .ok ⟨[], []⟩

/-- A request whose `reference_time` is not a valid ISO-8601 timestamp. -/
def fallbackBody : IngestRequest :=
  ⟨"x".toList, "nad".toList, none, none, "message".toList, some "not-a-date".toList⟩

/-- Witness for C7: an ingest with an unparsable `reference_time` still
returns `status: ok`, using the current time. -/
theorem ingest_reference_time_fallback_witness :
    fallbackEnv.fromisoformat "not-a-date".toList = none ∧
      ∃ resp, ingest fallbackEnv fallbackAdd fallbackBody = .ok resp ∧
        resp.status = "ok".toList ∧
        (episodeArgs fallbackEnv fallbackBody).reference_time = fallbackEnv.now :=
  ⟨rfl,
    (ingest_reference_time_fallback fallbackEnv "not-a-date".toList fallbackAdd
      fallbackBody).2.2.2 rfl rfl ⟨[], []⟩ rfl⟩

end Ai4uMemory
